import Mathlib

/-!
# Health-discovery delegate: shallow embedding

A shallow embedding of `source/common/upstream/health_discovery_service.cc`
(the `HdsDelegate` / `HdsCluster` pair): the reconcile algorithm
(`HdsDelegate::processMessage`), the per-cluster change detector
(`HdsCluster::update`), report construction (`HdsDelegate::sendResponse`),
and the stream session state machine (establish / receive / remote close /
timers / backoff), together with proofs about the specification's claims.

Machine conventions:
* Addresses are strings (the code compares hosts by
  `address()->asString()`); the external resolver
  (`Network::Address::resolveProtoAddress`, outside this translation unit)
  is modelled by a `resolvable` flag on each wire address, following the
  spec's description of unresolvable addresses as per-cluster failures.
* C++ exceptions are modelled by a `Bool` "completed normally" flag threaded
  through the functions (`false` = an exception escaped at that point;
  mutations performed before the throw are kept, later statements are not
  executed).
* Side effects on collaborator objects (probers started/stopped, messages
  sent, timers armed, backoff touched) are recorded as an `Action` trace.
-/

namespace HdsSpec

/-- A wire endpoint address. `addr` is the string form the resolver would
produce (`asString()`); `resolvable` models whether
`Network::Address::resolveProtoAddress` succeeds on it.
Modelled from the spec: the resolver itself is an external collaborator
("address parsing/resolution" is out of scope); the spec names
"unresolvable address" as the example of a per-cluster reconciliation
failure. -/
structure ProtoAddress where
  addr : String
  resolvable : Bool
deriving DecidableEq, Repr

/-- Model of `Network::Address::resolveProtoAddress`: yields the resolved address
string or fails (throws `EnvoyException`) on an unresolvable address. -/
def resolveProtoAddress (a : ProtoAddress) : Except Unit String :=
  if a.resolvable then .ok a.addr else .error ()

/-- Health-check configurations are opaque to the core (protocol, timeout,
thresholds, ...); only their pass-through identity matters here. -/
abbrev HealthCheckConfig := Nat

/-- The `envoy::api::v2::Cluster` as assembled inside `processMessage`:
name, flattened `hosts` list, health checks (timeout/buffer fields are
constants and irrelevant to every claim). -/
structure ClusterConfig where
  name : String
  hosts : List ProtoAddress
  health_checks : List HealthCheckConfig
deriving DecidableEq, Repr

/-- Mirror of `Host::ActiveHealthFailureType`. -/
inductive ActiveHealthFailureType
  | UNKNOWN
  | TIMEOUT
  | UNHEALTHY
deriving DecidableEq, Repr

/-- The `envoy::api::v2::core::HealthStatus` values used by `sendResponse`. -/
inductive HealthStatus
  | HEALTHY
  | UNHEALTHY
  | TIMEOUT
deriving DecidableEq, Repr

/-- One member host of an `HdsCluster`: its resolved address, whether
`host->health() == Host::Health::Healthy`, and its active-health failure
type. The health fields are mutated by the external probers. -/
structure Host where
  address : String
  healthy : Bool
  failure : ActiveHealthFailureType
deriving DecidableEq, Repr

/-- An `HdsCluster`: the stored `cluster_` config and the priority-0 host
set (the only priority the code creates). -/
structure HdsCluster where
  config : ClusterConfig
  hosts : List Host
deriving DecidableEq, Repr

/-- Model of the `HdsCluster` constructor's host construction: resolve each configured
address in order (first failure propagates as an exception); `initialize`
then flags every host `FAILED_ACTIVE_HC`, so hosts start not-healthy with
failure type `UNKNOWN` (the `HostImpl` default). -/
def resolveHosts : List ProtoAddress → Except Unit (List Host)
  | [] => .ok []
  | a :: rest =>
    match resolveProtoAddress a with
    | .error e => .error e
    | .ok s =>
      match resolveHosts rest with
      | .error e => .error e
      | .ok hs => .ok ({ address := s, healthy := false, failure := .UNKNOWN } :: hs)

/-- Model of the `HdsCluster` constructor (plus its `initialize` call): build the member
hosts from the config, failing if any address is unresolvable. -/
def createHdsCluster (cfg : ClusterConfig) : Except Unit HdsCluster :=
  match resolveHosts cfg.hosts with
  | .error e => .error e
  | .ok hs => .ok { config := cfg, hosts := hs }

/-- The candidate-membership scan inside `HdsCluster::update`: resolve each
candidate address in order; report `true` as soon as one is missing from
the current address set, fail if resolution fails first. -/
def scanCandidates : List ProtoAddress → List String → Except Unit Bool
  | [], _ => .ok false
  | a :: rest, cur =>
    match resolveProtoAddress a with
    | .error e => .error e
    | .ok s => if s ∈ cur then scanCandidates rest cur else .ok true

/-- Model of `HdsCluster::update`: returns `true` (recreate) when the host-list
sizes differ or some candidate address is absent from the current address
set; returns `false` (keep) otherwise. Health-check configs are not
consulted. -/
def HdsCluster.update (cl : HdsCluster) (cfg : ClusterConfig) : Except Unit Bool :=
  if cl.hosts.length ≠ cfg.hosts.length then .ok true
  else scanCandidates cfg.hosts (cl.hosts.map Host.address)

/-- One entry of the inbound `HealthCheckSpecifier`
(`envoy.service.discovery.v2.ClusterHealthCheck`): cluster name,
locality-grouped endpoint addresses, health-check configs. -/
structure ClusterHealthCheck where
  cluster_name : String
  locality_endpoints : List (List ProtoAddress)
  health_checks : List HealthCheckConfig
deriving DecidableEq, Repr

/-- The inbound `HealthCheckSpecifier` message. `interval` is `none` when
the (mandatory) field is absent from the wire message. -/
structure HealthCheckSpecifier where
  cluster_health_checks : List ClusterHealthCheck
  interval : Option Nat
deriving DecidableEq, Repr

/-- The `cluster_config` assembled for one entry in `processMessage`:
endpoints flattened across locality groups, health checks copied. -/
def clusterConfigOf (chc : ClusterHealthCheck) : ClusterConfig :=
  { name := chc.cluster_name
  , hosts := chc.locality_endpoints.flatten
  , health_checks := chc.health_checks }

/-- The registry `hds_clusters_` (`name → HdsCluster`), as an association
list with unique keys. -/
abbrev Registry := List (String × HdsCluster)

def lookupReg : Registry → String → Option HdsCluster
  | [], _ => none
  | (k, c) :: rest, n => if k = n then some c else lookupReg rest n

def eraseReg : Registry → String → Registry
  | [], _ => []
  | p :: rest, n => if p.1 = n then eraseReg rest n else p :: eraseReg rest n

def insertReg (reg : Registry) (n : String) (c : HdsCluster) : Registry :=
  reg ++ [(n, c)]

def regKeys (reg : Registry) : List String := reg.map (·.1)

/-- Observable side effects on the collaborators, recorded in order. -/
inductive Action
  | createCluster (name : String)
  | startProbers (name : String)
  | stopProbers (name : String)
  | sendHandshake
  | sendReport
  | backoffReset
  | backoffNext
  | armRetryTimer
  | armReportTimer (ms : Nat)
  | disarmReportTimer
deriving DecidableEq, Repr

/-- The body of `processMessage`'s per-entry loop for one
`cluster_health_check` entry: look the name up, run `update` on an
existing cluster (keep on `false`, erase + recreate on `true`), create and
start a fresh cluster otherwise. Erasing a cluster destroys it, which
stops its probers (`stopProbers`). The `Bool` is the no-exception flag. -/
def processOne (chc : ClusterHealthCheck) (reg : Registry) :
    Registry × List Action × Bool :=
  let name := chc.cluster_name
  let cfg := clusterConfigOf chc
  match lookupReg reg name with
  | some existing =>
    match existing.update cfg with
    | .error _ => (reg, [], false)
    | .ok false => (reg, [], true)
    | .ok true =>
      match createHdsCluster cfg with
      | .error _ => (eraseReg reg name, [.stopProbers name], false)
      | .ok cl =>
        (insertReg (eraseReg reg name) name cl,
         [.stopProbers name, .createCluster name, .startProbers name], true)
  | none =>
    match createHdsCluster cfg with
    | .error _ => (reg, [], false)
    | .ok cl => (insertReg reg name cl, [.createCluster name, .startProbers name], true)

/-- The entry loop of `processMessage`: process the entries in order; an
exception aborts the remainder of the loop (mutations already made are
kept). -/
def processEntries : List ClusterHealthCheck → Registry → Registry × List Action × Bool
  | [], reg => (reg, [], true)
  | chc :: rest, reg =>
    let r := processOne chc reg
    if r.2.2 then
      let r2 := processEntries rest r.1
      (r2.1, r.2.1 ++ r2.2.1, r2.2.2)
    else (r.1, r.2.1, false)

def entryNames (es : List ClusterHealthCheck) : List String :=
  es.map (·.cluster_name)

def specNames (msg : HealthCheckSpecifier) : List String :=
  entryNames msg.cluster_health_checks

/-- The `clusters_to_remove` set at the end of the entry loop: every name
tracked before the call whose entry was not named in the message. -/
def removeList (msg : HealthCheckSpecifier) (reg : Registry) : List String :=
  (regKeys reg).filter (fun n => decide (n ∉ specNames msg))

/-- Model of `HdsDelegate::processMessage`: run the entry loop, then (only when no
exception escaped the loop) erase every cluster in `clusters_to_remove`,
stopping its probers. -/
def processMessage (msg : HealthCheckSpecifier) (reg : Registry) :
    Registry × List Action × Bool :=
  let r := processEntries msg.cluster_health_checks reg
  if r.2.2 then
    ((removeList msg reg).foldl eraseReg r.1,
     r.2.1 ++ (removeList msg reg).map (fun n => Action.stopProbers n), true)
  else r

example :
    processMessage
      ⟨[⟨"c", [[⟨"a", true⟩], [⟨"b", true⟩]], [1]⟩], some 1000⟩ [] =
    ([("c", ⟨⟨"c", [⟨"a", true⟩, ⟨"b", true⟩], [1]⟩,
             [⟨"a", false, .UNKNOWN⟩, ⟨"b", false, .UNKNOWN⟩]⟩)],
     [.createCluster "c", .startProbers "c"], true) := by
  decide

/-! ## Report construction (`HdsDelegate::sendResponse`) -/

/-- One `endpoints_health` entry of the outbound
`EndpointHealthResponse`. -/
structure EndpointHealth where
  address : String
  health_status : HealthStatus
deriving DecidableEq, Repr

/-- The per-host status translation inside `sendResponse`: `HEALTHY` for a
healthy host, otherwise `TIMEOUT` / `UNHEALTHY` / `UNHEALTHY` by failure
type. The C++ `else` branch (`NOT_REACHED`) has no counterpart because the
failure-type enum is exhaustive, mirroring its unreachability. -/
def statusOfHost (h : Host) : HealthStatus :=
  if h.healthy then .HEALTHY
  else
    match h.failure with
    | .TIMEOUT => .TIMEOUT
    | .UNHEALTHY => .UNHEALTHY
    | .UNKNOWN => .UNHEALTHY

/-- The `EndpointHealthResponse` assembled by `sendResponse`: one entry per
host of every cluster of the registry, in iteration order. -/
def sendResponseEndpoints (reg : Registry) : List EndpointHealth :=
  reg.flatMap fun p => p.2.hosts.map fun h => ⟨h.address, statusOfHost h⟩

/-! ## Session manager (`HdsDelegate`) state and events -/

/-- The delegate's mutable state: the registry, the cached reporting
interval (`server_response_ms_`, 0 until first message), the two one-shot
timers (the report timer records the duration it was last armed with), the
stream handle (`stream_open` = `stream_ != nullptr`), and the three
counters. -/
structure DelegateState where
  registry : Registry
  server_response_ms : Nat
  report_timer : Option Nat
  retry_armed : Bool
  stream_open : Bool
  requests : Nat
  responses : Nat
  errors : Nat
deriving DecidableEq, Repr

/-- Model of `HdsDelegate::onReceiveMessage`: bump the request counter, extract the
mandatory interval (absence raises `MissingFieldException`, which this
callback does not catch: flag `false`, nothing further runs), reconcile
via `processMessage` (a per-cluster exception also escapes: flag `false`,
no timer update), then re-arm the report timer iff the interval changed.
The interval extraction is Modelled from the spec: `PROTOBUF_GET_MS_REQUIRED`
lives outside this translation unit; the spec calls the field mandatory
and its absence a protocol violation that must fail the message. -/
def onReceiveMessage (msg : HealthCheckSpecifier) (s : DelegateState) :
    DelegateState × List Action × Bool :=
  let s1 := { s with requests := s.requests + 1 }
  match msg.interval with
  | none => (s1, [], false)
  | some i =>
    let r := processMessage msg s1.registry
    let s2 := { s1 with registry := r.1 }
    if r.2.2 then
      if s2.server_response_ms = i then (s2, r.2.1, true)
      else
        ({ s2 with server_response_ms := i, report_timer := some i },
         r.2.1 ++ [Action.armReportTimer i], true)
    else (s2, r.2.1, false)

/-- External events delivered to the delegate by the event loop: the two
outcomes of `establishNewStream` (triggered by the constructor or the
retry timer), an inbound specification, a remote close, and a report-timer
fire. -/
inductive Event
  | establishOk
  | establishFail
  | receive (msg : HealthCheckSpecifier)
  | remoteClose
  | reportFire
deriving DecidableEq

/-- When an event can occur: `establishNewStream` runs only while
disconnected (constructor start or retry-timer fire); the transport
delivers `onReceiveMessage` / `onRemoteClose` only on an open stream; the
report timer fires only while armed. -/
def enabled (s : DelegateState) : Event → Prop
  | .establishOk => s.stream_open = false
  | .establishFail => s.stream_open = false
  | .receive _ => s.stream_open = true
  | .remoteClose => s.stream_open = true
  | .reportFire => s.report_timer ≠ none

/-- One delegate step.

* `establishOk`: `establishNewStream` succeeding — send the handshake
  `HealthCheckRequest`, bump `responses_`, reset the backoff.
* `establishFail`: `async_client_->start` returned null — `handleFailure`:
  bump `errors_`, take the next backoff value and arm the retry timer.
* `receive`: `onReceiveMessage` (see above).
* `remoteClose`: `onRemoteClose` — disarm the report timer, drop the
  stream, zero `server_response_ms_`, then `handleFailure`.
* `reportFire`: `sendResponse` — send the built report, bump `responses_`,
  re-arm the report timer with `server_response_ms_`. -/
def step (s : DelegateState) : Event → DelegateState × List Action
  | .establishOk =>
    ({ s with stream_open := true, retry_armed := false, responses := s.responses + 1 },
     [.sendHandshake, .backoffReset])
  | .establishFail =>
    ({ s with retry_armed := true, errors := s.errors + 1 },
     [.backoffNext, .armRetryTimer])
  | .receive msg =>
    let r := onReceiveMessage msg s
    (r.1, r.2.1)
  | .remoteClose =>
    ({ s with report_timer := none, stream_open := false, server_response_ms := 0,
              retry_armed := true, errors := s.errors + 1 },
     [.disarmReportTimer, .backoffNext, .armRetryTimer])
  | .reportFire =>
    ({ s with responses := s.responses + 1, report_timer := some s.server_response_ms },
     [.sendReport, .armReportTimer s.server_response_ms])

/-- The delegate's state right after construction, before the constructor's
`establishNewStream` call (delivered as the first event). -/
def initState : DelegateState :=
  { registry := [], server_response_ms := 0, report_timer := none,
    retry_armed := false, stream_open := false, requests := 0, responses := 0,
    errors := 0 }

/-- States the delegate can be in: `initState` plus anything produced by
enabled events. -/
inductive Reachable : DelegateState → Prop
  | init : Reachable initState
  | next {s : DelegateState} {e : Event} :
      Reachable s → enabled s e → Reachable (step s e).1

/-- Run a trace of events from a state, discarding actions. -/
def run (s : DelegateState) : List Event → DelegateState
  | [] => s
  | e :: rest => run (step s e).1 rest

def isEstablishOk : Event → Bool
  | .establishOk => true
  | _ => false

def isReportFire : Event → Bool
  | .reportFire => true
  | _ => false

/-- Count the stop-probers actions for one cluster name. -/
def isStopFor (n : String) : Action → Bool
  | .stopProbers m => m == n
  | _ => false

def stopCount (n : String) (acts : List Action) : Nat :=
  acts.countP (isStopFor n)

def countAct (a : Action) (acts : List Action) : Nat :=
  acts.count a

/-! ## Registry lemmas -/

theorem lookupReg_isSome_iff {reg : Registry} {n : String} :
    (lookupReg reg n).isSome ↔ n ∈ regKeys reg := by
  induction reg with
  | nil => simp [lookupReg, regKeys]
  | cons p rest ih =>
    obtain ⟨k, c⟩ := p
    by_cases hk : k = n
    · subst hk
      simp [lookupReg, regKeys]
    · simp [lookupReg, hk, regKeys, ih, Ne.symm hk]

theorem mem_regKeys_of_lookupReg {reg : Registry} {n : String} {c : HdsCluster}
    (h : lookupReg reg n = some c) : n ∈ regKeys reg := by
  rw [← lookupReg_isSome_iff, h]
  rfl

theorem lookupReg_eq_none_of_not_mem {reg : Registry} {n : String}
    (h : n ∉ regKeys reg) : lookupReg reg n = none := by
  cases hl : lookupReg reg n with
  | none => rfl
  | some c => exact absurd (mem_regKeys_of_lookupReg hl) h

theorem regKeys_cons {p : String × HdsCluster} {rest : Registry} :
    regKeys (p :: rest) = p.1 :: regKeys rest := rfl

theorem mem_regKeys_eraseReg {reg : Registry} {n k : String} :
    k ∈ regKeys (eraseReg reg n) ↔ k ∈ regKeys reg ∧ k ≠ n := by
  induction reg with
  | nil => simp [eraseReg, regKeys]
  | cons p rest ih =>
    by_cases hp : p.1 = n
    · rw [show eraseReg (p :: rest) n = eraseReg rest n from by simp [eraseReg, hp]]
      rw [ih, regKeys_cons]
      simp only [List.mem_cons]
      constructor
      · rintro ⟨h1, h2⟩
        exact ⟨Or.inr h1, h2⟩
      · rintro ⟨h1 | h1, h2⟩
        · exact absurd (h1.trans hp) h2
        · exact ⟨h1, h2⟩
    · rw [show eraseReg (p :: rest) n = p :: eraseReg rest n from by simp [eraseReg, hp]]
      rw [regKeys_cons, regKeys_cons]
      simp only [List.mem_cons, ih]
      constructor
      · rintro (h1 | ⟨h1, h2⟩)
        · exact ⟨Or.inl h1, fun hc => hp (h1.symm.trans hc)⟩
        · exact ⟨Or.inr h1, h2⟩
      · rintro ⟨h1 | h1, h2⟩
        · exact Or.inl h1
        · exact Or.inr ⟨h1, h2⟩

theorem lookupReg_eraseReg_ne {reg : Registry} {n k : String} (h : k ≠ n) :
    lookupReg (eraseReg reg n) k = lookupReg reg k := by
  induction reg with
  | nil => rfl
  | cons p rest ih =>
    obtain ⟨k', c⟩ := p
    by_cases hk : k' = n
    · have hne : k' ≠ k := fun hc => h (hc.symm.trans hk)
      simp only [eraseReg, if_pos hk, lookupReg, if_neg hne]
      exact ih
    · by_cases hk2 : k' = k
      · subst hk2
        simp [eraseReg, hk, lookupReg]
      · simp only [eraseReg, if_neg hk, lookupReg, if_neg hk2]
        exact ih

theorem regKeys_insertReg {reg : Registry} {n : String} {c : HdsCluster} :
    regKeys (insertReg reg n c) = regKeys reg ++ [n] := by
  simp [insertReg, regKeys]

theorem lookupReg_insertReg_self {reg : Registry} {n : String} {c : HdsCluster}
    (h : n ∉ regKeys reg) : lookupReg (insertReg reg n c) n = some c := by
  induction reg with
  | nil => simp [insertReg, lookupReg]
  | cons p rest ih =>
    obtain ⟨k, c'⟩ := p
    rw [regKeys_cons] at h
    simp only [List.mem_cons, not_or] at h
    simp only [insertReg, List.cons_append, lookupReg,
      if_neg (fun hc : k = n => h.1 hc.symm)]
    exact ih h.2

theorem lookupReg_insertReg_ne {reg : Registry} {n k : String} {c : HdsCluster}
    (h : k ≠ n) : lookupReg (insertReg reg n c) k = lookupReg reg k := by
  induction reg with
  | nil => simp [insertReg, lookupReg, Ne.symm h]
  | cons p rest ih =>
    obtain ⟨k', c'⟩ := p
    by_cases hk : k' = k
    · subst hk
      simp [insertReg, lookupReg]
    · simp only [insertReg, List.cons_append, lookupReg, if_neg hk]
      exact ih

theorem regKeys_nodup_eraseReg {reg : Registry} {n : String}
    (h : (regKeys reg).Nodup) : (regKeys (eraseReg reg n)).Nodup := by
  induction reg with
  | nil => simp [eraseReg, regKeys]
  | cons p rest ih =>
    simp only [regKeys, List.map_cons, List.nodup_cons] at h
    by_cases hp : p.1 = n
    · simp only [eraseReg, if_pos hp]
      exact ih h.2
    · simp only [eraseReg, if_neg hp, regKeys, List.map_cons, List.nodup_cons]
      refine ⟨fun hc => ?_, ih h.2⟩
      exact h.1 (mem_regKeys_eraseReg.1 hc).1

theorem regKeys_nodup_insertReg {reg : Registry} {n : String} {c : HdsCluster}
    (h : (regKeys reg).Nodup) (hn : n ∉ regKeys reg) :
    (regKeys (insertReg reg n c)).Nodup := by
  rw [regKeys_insertReg]
  refine List.Nodup.append h (by simp) ?_
  intro a ha hb
  simp only [List.mem_singleton] at hb
  subst hb
  exact hn ha

/-! ## Resolution, creation and change-detection lemmas -/

theorem resolveHosts_ok_addresses {l : List ProtoAddress} {hs : List Host}
    (h : resolveHosts l = .ok hs) : hs.map Host.address = l.map ProtoAddress.addr := by
  induction l generalizing hs with
  | nil =>
    simp only [resolveHosts] at h
    cases h
    rfl
  | cons a rest ih =>
    simp only [resolveHosts, resolveProtoAddress] at h
    by_cases hr : a.resolvable
    · simp only [hr, if_true] at h
      cases hrest : resolveHosts rest with
      | error e => rw [hrest] at h; cases h
      | ok hs' =>
        rw [hrest] at h
        cases h
        simp [ih hrest]
    · simp [hr] at h

theorem resolveHosts_ok_resolvable {l : List ProtoAddress} {hs : List Host}
    (h : resolveHosts l = .ok hs) : ∀ a ∈ l, a.resolvable = true := by
  induction l generalizing hs with
  | nil => simp
  | cons a rest ih =>
    simp only [resolveHosts, resolveProtoAddress] at h
    by_cases hr : a.resolvable
    · simp only [hr, if_true] at h
      cases hrest : resolveHosts rest with
      | error e => rw [hrest] at h; cases h
      | ok hs' =>
        intro b hb
        rcases List.mem_cons.1 hb with hb | hb
        · subst hb; exact hr
        · exact ih hrest b hb
    · simp [hr] at h

theorem resolveHosts_of_resolvable {l : List ProtoAddress}
    (h : ∀ a ∈ l, a.resolvable = true) :
    resolveHosts l =
      .ok (l.map fun a => { address := a.addr, healthy := false, failure := .UNKNOWN }) := by
  induction l with
  | nil => rfl
  | cons a rest ih =>
    have ha : a.resolvable = true := h a (List.mem_cons_self a rest)
    simp only [resolveHosts, resolveProtoAddress, ha, if_true,
      ih (fun b hb => h b (List.mem_cons_of_mem a hb)), List.map_cons]

theorem createHdsCluster_ok {cfg : ClusterConfig} {cl : HdsCluster}
    (h : createHdsCluster cfg = .ok cl) :
    cl.config = cfg ∧ cl.hosts.map Host.address = cfg.hosts.map ProtoAddress.addr ∧
      ∀ a ∈ cfg.hosts, a.resolvable = true := by
  simp only [createHdsCluster] at h
  cases hres : resolveHosts cfg.hosts with
  | error e => rw [hres] at h; cases h
  | ok hs =>
    rw [hres] at h
    cases h
    exact ⟨rfl, resolveHosts_ok_addresses hres, resolveHosts_ok_resolvable hres⟩

theorem createHdsCluster_of_resolvable {cfg : ClusterConfig}
    (h : ∀ a ∈ cfg.hosts, a.resolvable = true) :
    createHdsCluster cfg =
      .ok { config := cfg
          , hosts := cfg.hosts.map fun a =>
              { address := a.addr, healthy := false, failure := .UNKNOWN } } := by
  simp only [createHdsCluster, resolveHosts_of_resolvable h]

theorem scanCandidates_of_resolvable {l : List ProtoAddress} {cur : List String}
    (h : ∀ a ∈ l, a.resolvable = true) :
    scanCandidates l cur = .ok (decide (∃ a ∈ l, a.addr ∉ cur)) := by
  induction l with
  | nil => simp [scanCandidates]
  | cons a rest ih =>
    have ha : a.resolvable = true := h a (List.mem_cons_self a rest)
    simp only [scanCandidates, resolveProtoAddress, ha, if_true]
    by_cases hmem : a.addr ∈ cur
    · rw [if_pos hmem, ih (fun b hb => h b (List.mem_cons_of_mem a hb))]
      congr 1
      rw [decide_eq_decide]
      constructor
      · rintro ⟨b, hb, hnb⟩
        exact ⟨b, List.mem_cons_of_mem a hb, hnb⟩
      · rintro ⟨b, hb, hnb⟩
        rcases List.mem_cons.1 hb with rfl | hb
        · exact absurd hmem hnb
        · exact ⟨b, hb, hnb⟩
    · rw [if_neg hmem]
      congr 1
      exact (decide_eq_true ⟨a, List.mem_cons_self a rest, hmem⟩).symm

theorem update_of_resolvable {cl : HdsCluster} {cfg : ClusterConfig}
    (h : ∀ a ∈ cfg.hosts, a.resolvable = true) :
    cl.update cfg =
      .ok (decide (cl.hosts.length ≠ cfg.hosts.length ∨
        ∃ a ∈ cfg.hosts, a.addr ∉ cl.hosts.map Host.address)) := by
  unfold HdsCluster.update
  by_cases hlen : cl.hosts.length = cfg.hosts.length
  · rw [if_neg (by simpa using hlen), scanCandidates_of_resolvable h]
    congr 1
    simp [hlen]
  · rw [if_pos (by simpa using hlen)]
    congr 1
    simp [hlen]

/-- Re-applying a cluster's own config detects no change. -/
theorem update_self {cfg : ClusterConfig} {cl : HdsCluster}
    (h : createHdsCluster cfg = .ok cl) : cl.update cfg = .ok false := by
  obtain ⟨-, haddr, hres⟩ := createHdsCluster_ok h
  rw [update_of_resolvable hres]
  congr 1
  simp only [decide_eq_false_iff_not, not_or, not_exists, not_and, not_not]
  constructor
  · have := congrArg List.length haddr
    simpa using this
  · intro a ha
    rw [haddr]
    exact List.mem_map_of_mem ProtoAddress.addr ha

/-! ## Lemmas about erasing a list of names (`clusters_to_remove`) -/

theorem lookupReg_foldl_eraseReg_not_mem {names : List String} {reg : Registry} {n : String}
    (h : n ∉ names) : lookupReg (names.foldl eraseReg reg) n = lookupReg reg n := by
  induction names generalizing reg with
  | nil => rfl
  | cons m rest ih =>
    simp only [List.mem_cons, not_or] at h
    rw [List.foldl_cons, ih h.2, lookupReg_eraseReg_ne h.1]

theorem mem_regKeys_foldl_eraseReg {names : List String} {reg : Registry} {k : String} :
    k ∈ regKeys (names.foldl eraseReg reg) ↔ k ∈ regKeys reg ∧ k ∉ names := by
  induction names generalizing reg with
  | nil => simp
  | cons m rest ih =>
    rw [List.foldl_cons, ih]
    rw [mem_regKeys_eraseReg]
    simp only [List.mem_cons, not_or]
    tauto

/-! ## Per-entry reconcile lemmas (`processOne`) -/

theorem processOne_found_update_fail {chc : ClusterHealthCheck} {reg : Registry}
    {existing : HdsCluster} {e : Unit}
    (hl : lookupReg reg chc.cluster_name = some existing)
    (hu : existing.update (clusterConfigOf chc) = .error e) :
    processOne chc reg = (reg, [], false) := by
  simp only [processOne, hl, hu]

theorem processOne_found_keep {chc : ClusterHealthCheck} {reg : Registry}
    {existing : HdsCluster}
    (hl : lookupReg reg chc.cluster_name = some existing)
    (hu : existing.update (clusterConfigOf chc) = .ok false) :
    processOne chc reg = (reg, [], true) := by
  simp only [processOne, hl, hu]

theorem processOne_found_changed_fail {chc : ClusterHealthCheck} {reg : Registry}
    {existing : HdsCluster} {e : Unit}
    (hl : lookupReg reg chc.cluster_name = some existing)
    (hu : existing.update (clusterConfigOf chc) = .ok true)
    (hc : createHdsCluster (clusterConfigOf chc) = .error e) :
    processOne chc reg =
      (eraseReg reg chc.cluster_name, [.stopProbers chc.cluster_name], false) := by
  simp only [processOne, hl, hu, hc]

theorem processOne_found_changed_ok {chc : ClusterHealthCheck} {reg : Registry}
    {existing cl : HdsCluster}
    (hl : lookupReg reg chc.cluster_name = some existing)
    (hu : existing.update (clusterConfigOf chc) = .ok true)
    (hc : createHdsCluster (clusterConfigOf chc) = .ok cl) :
    processOne chc reg =
      (insertReg (eraseReg reg chc.cluster_name) chc.cluster_name cl,
       [.stopProbers chc.cluster_name, .createCluster chc.cluster_name,
        .startProbers chc.cluster_name], true) := by
  simp only [processOne, hl, hu, hc]

theorem processOne_fresh_fail {chc : ClusterHealthCheck} {reg : Registry} {e : Unit}
    (hl : lookupReg reg chc.cluster_name = none)
    (hc : createHdsCluster (clusterConfigOf chc) = .error e) :
    processOne chc reg = (reg, [], false) := by
  simp only [processOne, hl, hc]

theorem processOne_fresh_ok {chc : ClusterHealthCheck} {reg : Registry} {cl : HdsCluster}
    (hl : lookupReg reg chc.cluster_name = none)
    (hc : createHdsCluster (clusterConfigOf chc) = .ok cl) :
    processOne chc reg =
      (insertReg reg chc.cluster_name cl,
       [.createCluster chc.cluster_name, .startProbers chc.cluster_name], true) := by
  simp only [processOne, hl, hc]

theorem processOne_lookup_frame {chc : ClusterHealthCheck} {reg : Registry} {k : String}
    (h : k ≠ chc.cluster_name) :
    lookupReg (processOne chc reg).1 k = lookupReg reg k := by
  cases hl : lookupReg reg chc.cluster_name with
  | some existing =>
    cases hu : existing.update (clusterConfigOf chc) with
    | error e => rw [processOne_found_update_fail hl hu]
    | ok b =>
      cases b with
      | false => rw [processOne_found_keep hl hu]
      | true =>
        cases hc : createHdsCluster (clusterConfigOf chc) with
        | error e =>
          rw [processOne_found_changed_fail hl hu hc]
          exact lookupReg_eraseReg_ne h
        | ok cl =>
          rw [processOne_found_changed_ok hl hu hc]
          exact (lookupReg_insertReg_ne h).trans (lookupReg_eraseReg_ne h)
  | none =>
    cases hc : createHdsCluster (clusterConfigOf chc) with
    | error e => rw [processOne_fresh_fail hl hc]
    | ok cl =>
      rw [processOne_fresh_ok hl hc]
      exact lookupReg_insertReg_ne h

theorem processOne_actions {chc : ClusterHealthCheck} {reg : Registry} :
    ∀ a ∈ (processOne chc reg).2.1,
      a = .stopProbers chc.cluster_name ∨ a = .createCluster chc.cluster_name ∨
        a = .startProbers chc.cluster_name := by
  cases hl : lookupReg reg chc.cluster_name with
  | some existing =>
    cases hu : existing.update (clusterConfigOf chc) with
    | error e => rw [processOne_found_update_fail hl hu]; simp
    | ok b =>
      cases b with
      | false => rw [processOne_found_keep hl hu]; simp
      | true =>
        cases hc : createHdsCluster (clusterConfigOf chc) with
        | error e => rw [processOne_found_changed_fail hl hu hc]; simp
        | ok cl =>
          rw [processOne_found_changed_ok hl hu hc]
          intro a ha
          simp only [List.mem_cons, List.not_mem_nil, or_false] at ha
          tauto
  | none =>
    cases hc : createHdsCluster (clusterConfigOf chc) with
    | error e => rw [processOne_fresh_fail hl hc]; simp
    | ok cl =>
      rw [processOne_fresh_ok hl hc]
      intro a ha
      simp only [List.mem_cons, List.not_mem_nil, or_false] at ha
      tauto

theorem processOne_stopCount_ne {chc : ClusterHealthCheck} {reg : Registry} {k : String}
    (h : k ≠ chc.cluster_name) : stopCount k (processOne chc reg).2.1 = 0 := by
  rw [stopCount, List.countP_eq_zero]
  intro a ha
  rcases processOne_actions a ha with rfl | rfl | rfl
  · simp only [isStopFor, beq_iff_eq]
    exact fun hc => h hc.symm
  · simp [isStopFor]
  · simp [isStopFor]

theorem processOne_keys_sub {chc : ClusterHealthCheck} {reg : Registry} {k : String}
    (h : k ∈ regKeys (processOne chc reg).1) : k ∈ regKeys reg ∨ k = chc.cluster_name := by
  revert h
  cases hl : lookupReg reg chc.cluster_name with
  | some existing =>
    cases hu : existing.update (clusterConfigOf chc) with
    | error e => rw [processOne_found_update_fail hl hu]; exact Or.inl
    | ok b =>
      cases b with
      | false => rw [processOne_found_keep hl hu]; exact Or.inl
      | true =>
        cases hc : createHdsCluster (clusterConfigOf chc) with
        | error e =>
          rw [processOne_found_changed_fail hl hu hc]
          exact fun h => Or.inl (mem_regKeys_eraseReg.1 h).1
        | ok cl =>
          rw [processOne_found_changed_ok hl hu hc]
          intro h
          rw [regKeys_insertReg] at h
          rcases List.mem_append.1 h with h | h
          · exact Or.inl (mem_regKeys_eraseReg.1 h).1
          · exact Or.inr (List.mem_singleton.1 h)
  | none =>
    cases hc : createHdsCluster (clusterConfigOf chc) with
    | error e => rw [processOne_fresh_fail hl hc]; exact Or.inl
    | ok cl =>
      rw [processOne_fresh_ok hl hc]
      intro h
      rw [regKeys_insertReg] at h
      rcases List.mem_append.1 h with h | h
      · exact Or.inl h
      · exact Or.inr (List.mem_singleton.1 h)

theorem processOne_keys_sup {chc : ClusterHealthCheck} {reg : Registry} {k : String}
    (hok : (processOne chc reg).2.2 = true) (h : k ∈ regKeys reg) :
    k ∈ regKeys (processOne chc reg).1 := by
  revert hok
  cases hl : lookupReg reg chc.cluster_name with
  | some existing =>
    cases hu : existing.update (clusterConfigOf chc) with
    | error e => rw [processOne_found_update_fail hl hu]; intro hok; cases hok
    | ok b =>
      cases b with
      | false => rw [processOne_found_keep hl hu]; exact fun _ => h
      | true =>
        cases hc : createHdsCluster (clusterConfigOf chc) with
        | error e => rw [processOne_found_changed_fail hl hu hc]; intro hok; cases hok
        | ok cl =>
          rw [processOne_found_changed_ok hl hu hc]
          intro _
          rw [regKeys_insertReg]
          by_cases hk : k = chc.cluster_name
          · exact List.mem_append.2 (Or.inr (List.mem_singleton.2 hk))
          · exact List.mem_append.2 (Or.inl (mem_regKeys_eraseReg.2 ⟨h, hk⟩))
  | none =>
    cases hc : createHdsCluster (clusterConfigOf chc) with
    | error e => rw [processOne_fresh_fail hl hc]; intro hok; cases hok
    | ok cl =>
      rw [processOne_fresh_ok hl hc]
      intro _
      rw [regKeys_insertReg]
      exact List.mem_append.2 (Or.inl h)

theorem processOne_ok_mem {chc : ClusterHealthCheck} {reg : Registry}
    (hok : (processOne chc reg).2.2 = true) :
    chc.cluster_name ∈ regKeys (processOne chc reg).1 := by
  revert hok
  cases hl : lookupReg reg chc.cluster_name with
  | some existing =>
    cases hu : existing.update (clusterConfigOf chc) with
    | error e => rw [processOne_found_update_fail hl hu]; intro hok; cases hok
    | ok b =>
      cases b with
      | false =>
        rw [processOne_found_keep hl hu]
        exact fun _ => mem_regKeys_of_lookupReg hl
      | true =>
        cases hc : createHdsCluster (clusterConfigOf chc) with
        | error e => rw [processOne_found_changed_fail hl hu hc]; intro hok; cases hok
        | ok cl =>
          rw [processOne_found_changed_ok hl hu hc]
          intro _
          rw [regKeys_insertReg]
          exact List.mem_append.2 (Or.inr (List.mem_singleton.2 rfl))
  | none =>
    cases hc : createHdsCluster (clusterConfigOf chc) with
    | error e => rw [processOne_fresh_fail hl hc]; intro hok; cases hok
    | ok cl =>
      rw [processOne_fresh_ok hl hc]
      intro _
      rw [regKeys_insertReg]
      exact List.mem_append.2 (Or.inr (List.mem_singleton.2 rfl))

theorem processOne_keys_nodup {chc : ClusterHealthCheck} {reg : Registry}
    (h : (regKeys reg).Nodup) : (regKeys (processOne chc reg).1).Nodup := by
  cases hl : lookupReg reg chc.cluster_name with
  | some existing =>
    cases hu : existing.update (clusterConfigOf chc) with
    | error e => rw [processOne_found_update_fail hl hu]; exact h
    | ok b =>
      cases b with
      | false => rw [processOne_found_keep hl hu]; exact h
      | true =>
        cases hc : createHdsCluster (clusterConfigOf chc) with
        | error e =>
          rw [processOne_found_changed_fail hl hu hc]
          exact regKeys_nodup_eraseReg h
        | ok cl =>
          rw [processOne_found_changed_ok hl hu hc]
          refine regKeys_nodup_insertReg (regKeys_nodup_eraseReg h) ?_
          intro hmem
          exact (mem_regKeys_eraseReg.1 hmem).2 rfl
  | none =>
    cases hc : createHdsCluster (clusterConfigOf chc) with
    | error e => rw [processOne_fresh_fail hl hc]; exact h
    | ok cl =>
      rw [processOne_fresh_ok hl hc]
      refine regKeys_nodup_insertReg h ?_
      intro hmem
      rw [← lookupReg_isSome_iff, hl] at hmem
      cases hmem

theorem processOne_ok_update {chc : ClusterHealthCheck} {reg : Registry}
    (hok : (processOne chc reg).2.2 = true) :
    ∃ cl, lookupReg (processOne chc reg).1 chc.cluster_name = some cl ∧
      cl.update (clusterConfigOf chc) = .ok false := by
  revert hok
  cases hl : lookupReg reg chc.cluster_name with
  | some existing =>
    cases hu : existing.update (clusterConfigOf chc) with
    | error e => rw [processOne_found_update_fail hl hu]; intro hok; cases hok
    | ok b =>
      cases b with
      | false =>
        rw [processOne_found_keep hl hu]
        exact fun _ => ⟨existing, hl, hu⟩
      | true =>
        cases hc : createHdsCluster (clusterConfigOf chc) with
        | error e => rw [processOne_found_changed_fail hl hu hc]; intro hok; cases hok
        | ok cl =>
          rw [processOne_found_changed_ok hl hu hc]
          intro _
          refine ⟨cl, ?_, update_self hc⟩
          refine lookupReg_insertReg_self ?_
          intro hmem
          exact (mem_regKeys_eraseReg.1 hmem).2 rfl
  | none =>
    cases hc : createHdsCluster (clusterConfigOf chc) with
    | error e => rw [processOne_fresh_fail hl hc]; intro hok; cases hok
    | ok cl =>
      rw [processOne_fresh_ok hl hc]
      intro _
      refine ⟨cl, ?_, update_self hc⟩
      refine lookupReg_insertReg_self ?_
      intro hmem
      rw [← lookupReg_isSome_iff, hl] at hmem
      cases hmem

/-! ## Entry-loop lemmas (`processEntries`) -/

theorem processEntries_cons_of_ok {chc : ClusterHealthCheck} {rest : List ClusterHealthCheck}
    {reg : Registry} (h : (processOne chc reg).2.2 = true) :
    processEntries (chc :: rest) reg =
      ((processEntries rest (processOne chc reg).1).1,
       (processOne chc reg).2.1 ++ (processEntries rest (processOne chc reg).1).2.1,
       (processEntries rest (processOne chc reg).1).2.2) := by
  simp only [processEntries]
  simp [h]

theorem processEntries_cons_of_fail {chc : ClusterHealthCheck} {rest : List ClusterHealthCheck}
    {reg : Registry} (h : (processOne chc reg).2.2 = false) :
    processEntries (chc :: rest) reg =
      ((processOne chc reg).1, (processOne chc reg).2.1, false) := by
  simp only [processEntries]
  simp [h]

theorem processEntries_cons_ok_iff {chc : ClusterHealthCheck} {rest : List ClusterHealthCheck}
    {reg : Registry} :
    (processEntries (chc :: rest) reg).2.2 = true ↔
      (processOne chc reg).2.2 = true ∧
        (processEntries rest (processOne chc reg).1).2.2 = true := by
  by_cases h : (processOne chc reg).2.2 = true
  · rw [processEntries_cons_of_ok h]
    simp [h]
  · rw [processEntries_cons_of_fail (by simpa using h)]
    simp [h]

theorem processEntries_lookup_frame {es : List ClusterHealthCheck} {reg : Registry} {k : String}
    (h : k ∉ entryNames es) :
    lookupReg (processEntries es reg).1 k = lookupReg reg k := by
  induction es generalizing reg with
  | nil => rfl
  | cons chc rest ih =>
    simp only [entryNames, List.map_cons, List.mem_cons, not_or] at h
    by_cases hok : (processOne chc reg).2.2 = true
    · rw [processEntries_cons_of_ok hok]
      exact (ih h.2).trans (processOne_lookup_frame h.1)
    · rw [processEntries_cons_of_fail (by simpa using hok)]
      exact processOne_lookup_frame h.1

theorem processEntries_stopCount {es : List ClusterHealthCheck} {reg : Registry} {k : String}
    (h : k ∉ entryNames es) : stopCount k (processEntries es reg).2.1 = 0 := by
  induction es generalizing reg with
  | nil => rfl
  | cons chc rest ih =>
    simp only [entryNames, List.map_cons, List.mem_cons, not_or] at h
    by_cases hok : (processOne chc reg).2.2 = true
    · rw [processEntries_cons_of_ok hok]
      simp only [stopCount, List.countP_append]
      rw [← stopCount, ← stopCount, processOne_stopCount_ne h.1, ih h.2]
    · rw [processEntries_cons_of_fail (by simpa using hok)]
      exact processOne_stopCount_ne h.1

theorem processEntries_keys_sub {es : List ClusterHealthCheck} {reg : Registry} {k : String}
    (h : k ∈ regKeys (processEntries es reg).1) : k ∈ regKeys reg ∨ k ∈ entryNames es := by
  induction es generalizing reg with
  | nil => exact Or.inl h
  | cons chc rest ih =>
    by_cases hok : (processOne chc reg).2.2 = true
    · rw [processEntries_cons_of_ok hok] at h
      rcases ih h with h1 | h1
      · rcases processOne_keys_sub h1 with h2 | h2
        · exact Or.inl h2
        · exact Or.inr (by simp [entryNames, h2])
      · exact Or.inr (by simp [entryNames]; exact Or.inr (by simpa [entryNames] using h1))
    · rw [processEntries_cons_of_fail (by simpa using hok)] at h
      rcases processOne_keys_sub h with h2 | h2
      · exact Or.inl h2
      · exact Or.inr (by simp [entryNames, h2])

theorem processEntries_keys_sup {es : List ClusterHealthCheck} {reg : Registry} {k : String}
    (hok : (processEntries es reg).2.2 = true)
    (h : k ∈ regKeys reg ∨ k ∈ entryNames es) : k ∈ regKeys (processEntries es reg).1 := by
  induction es generalizing reg with
  | nil =>
    rcases h with h | h
    · exact h
    · cases h
  | cons chc rest ih =>
    have hsplit := processEntries_cons_ok_iff.1 hok
    rw [processEntries_cons_of_ok hsplit.1]
    rcases h with h | h
    · exact ih hsplit.2 (Or.inl (processOne_keys_sup hsplit.1 h))
    · simp only [entryNames, List.map_cons, List.mem_cons] at h
      rcases h with h | h
      · subst h
        exact ih hsplit.2 (Or.inl (processOne_ok_mem hsplit.1))
      · exact ih hsplit.2 (Or.inr h)

theorem processEntries_keys_nodup {es : List ClusterHealthCheck} {reg : Registry}
    (h : (regKeys reg).Nodup) : (regKeys (processEntries es reg).1).Nodup := by
  induction es generalizing reg with
  | nil => exact h
  | cons chc rest ih =>
    by_cases hok : (processOne chc reg).2.2 = true
    · rw [processEntries_cons_of_ok hok]
      exact ih (processOne_keys_nodup h)
    · rw [processEntries_cons_of_fail (by simpa using hok)]
      exact processOne_keys_nodup h

theorem processEntries_no_reset {es : List ClusterHealthCheck} {reg : Registry} :
    Action.backoffReset ∉ (processEntries es reg).2.1 := by
  induction es generalizing reg with
  | nil => simp [processEntries]
  | cons chc rest ih =>
    by_cases hok : (processOne chc reg).2.2 = true
    · rw [processEntries_cons_of_ok hok]
      intro hmem
      rcases List.mem_append.1 hmem with hmem | hmem
      · rcases processOne_actions _ hmem with h | h | h <;> cases h
      · exact ih hmem
    · rw [processEntries_cons_of_fail (by simpa using hok)]
      intro hmem
      rcases processOne_actions _ hmem with h | h | h <;> cases h

theorem processEntries_update_ok {es : List ClusterHealthCheck} {reg : Registry}
    (hnd : (entryNames es).Nodup) (hok : (processEntries es reg).2.2 = true) :
    ∀ chc ∈ es, ∃ cl, lookupReg (processEntries es reg).1 chc.cluster_name = some cl ∧
      cl.update (clusterConfigOf chc) = .ok false := by
  induction es generalizing reg with
  | nil => simp
  | cons chc0 rest ih =>
    have hsplit := processEntries_cons_ok_iff.1 hok
    simp only [entryNames, List.map_cons, List.nodup_cons] at hnd
    intro chc hmem
    rcases List.mem_cons.1 hmem with rfl | hmem
    · obtain ⟨cl, hl, hu⟩ := processOne_ok_update hsplit.1
      refine ⟨cl, ?_, hu⟩
      rw [processEntries_cons_of_ok hsplit.1]
      rw [processEntries_lookup_frame (by simpa [entryNames] using hnd.1)]
      exact hl
    · rw [processEntries_cons_of_ok hsplit.1]
      exact ih hnd.2 hsplit.2 chc hmem

theorem processEntries_stable {es : List ClusterHealthCheck} {reg : Registry}
    (h : ∀ chc ∈ es, ∃ cl, lookupReg reg chc.cluster_name = some cl ∧
      cl.update (clusterConfigOf chc) = .ok false) :
    processEntries es reg = (reg, [], true) := by
  induction es with
  | nil => rfl
  | cons chc rest ih =>
    obtain ⟨cl, hl, hu⟩ := h chc (List.mem_cons_self chc rest)
    have hone : processOne chc reg = (reg, [], true) := processOne_found_keep hl hu
    rw [processEntries_cons_of_ok (by rw [hone])]
    rw [hone, ih (fun c hc => h c (List.mem_cons_of_mem chc hc))]
    simp

/-! ## Reconcile lemmas (`processMessage`) -/

theorem mem_removeList {msg : HealthCheckSpecifier} {reg : Registry} {n : String} :
    n ∈ removeList msg reg ↔ n ∈ regKeys reg ∧ n ∉ specNames msg := by
  simp [removeList, List.mem_filter]

theorem removeList_nodup {msg : HealthCheckSpecifier} {reg : Registry}
    (h : (regKeys reg).Nodup) : (removeList msg reg).Nodup :=
  h.filter _

theorem processMessage_ok_iff {msg : HealthCheckSpecifier} {reg : Registry} :
    (processMessage msg reg).2.2 = (processEntries msg.cluster_health_checks reg).2.2 := by
  simp only [processMessage]
  by_cases h : (processEntries msg.cluster_health_checks reg).2.2 = true
  · simp [h]
  · simp [h]

theorem processMessage_of_ok {msg : HealthCheckSpecifier} {reg : Registry}
    (h : (processEntries msg.cluster_health_checks reg).2.2 = true) :
    processMessage msg reg =
      ((removeList msg reg).foldl eraseReg (processEntries msg.cluster_health_checks reg).1,
       (processEntries msg.cluster_health_checks reg).2.1 ++
         (removeList msg reg).map (fun n => Action.stopProbers n), true) := by
  simp only [processMessage]
  simp [h]

theorem processMessage_of_fail {msg : HealthCheckSpecifier} {reg : Registry}
    (h : (processEntries msg.cluster_health_checks reg).2.2 = false) :
    processMessage msg reg = processEntries msg.cluster_health_checks reg := by
  simp only [processMessage]
  simp [h]

theorem processMessage_keys_sub_spec {msg : HealthCheckSpecifier} {reg : Registry}
    (hok : (processMessage msg reg).2.2 = true) :
    ∀ n ∈ regKeys (processMessage msg reg).1, n ∈ specNames msg := by
  have hpe : (processEntries msg.cluster_health_checks reg).2.2 = true :=
    processMessage_ok_iff ▸ hok
  rw [processMessage_of_ok hpe]
  intro n hn
  simp only at hn
  rw [mem_regKeys_foldl_eraseReg] at hn
  obtain ⟨h1, h2⟩ := hn
  rcases processEntries_keys_sub h1 with h3 | h3
  · by_contra hns
    exact h2 (mem_removeList.2 ⟨h3, hns⟩)
  · exact h3

theorem processMessage_removed {msg : HealthCheckSpecifier} {reg : Registry} {n : String}
    (hok : (processMessage msg reg).2.2 = true)
    (h1 : n ∈ regKeys reg) (h2 : n ∉ specNames msg) :
    n ∉ regKeys (processMessage msg reg).1 := by
  have hpe : (processEntries msg.cluster_health_checks reg).2.2 = true :=
    processMessage_ok_iff ▸ hok
  rw [processMessage_of_ok hpe]
  simp only
  rw [mem_regKeys_foldl_eraseReg]
  rintro ⟨-, hmem⟩
  exact hmem (mem_removeList.2 ⟨h1, h2⟩)

theorem stopCount_map_stop {names : List String} {n : String} :
    stopCount n (names.map (fun m => Action.stopProbers m)) = names.count n := by
  induction names with
  | nil => rfl
  | cons m rest ih =>
    simp only [List.map_cons, stopCount, List.countP_cons, List.count_cons, isStopFor] at *
    rw [ih]

theorem processMessage_stopCount_removed {msg : HealthCheckSpecifier} {reg : Registry}
    {n : String} (hkeys : (regKeys reg).Nodup)
    (hok : (processMessage msg reg).2.2 = true)
    (h1 : n ∈ regKeys reg) (h2 : n ∉ specNames msg) :
    stopCount n (processMessage msg reg).2.1 = 1 := by
  have hpe : (processEntries msg.cluster_health_checks reg).2.2 = true :=
    processMessage_ok_iff ▸ hok
  rw [processMessage_of_ok hpe]
  simp only [stopCount, List.countP_append]
  rw [← stopCount, ← stopCount, processEntries_stopCount h2, stopCount_map_stop]
  rw [List.count_eq_one_of_mem (removeList_nodup hkeys) (mem_removeList.2 ⟨h1, h2⟩)]

theorem processMessage_keeps_spec {msg : HealthCheckSpecifier} {reg : Registry} {n : String}
    (hok : (processMessage msg reg).2.2 = true) (h : n ∈ specNames msg) :
    n ∈ regKeys (processMessage msg reg).1 := by
  have hpe : (processEntries msg.cluster_health_checks reg).2.2 = true :=
    processMessage_ok_iff ▸ hok
  rw [processMessage_of_ok hpe]
  simp only
  rw [mem_regKeys_foldl_eraseReg]
  refine ⟨processEntries_keys_sup hpe (Or.inr h), ?_⟩
  intro hmem
  exact (mem_removeList.1 hmem).2 h

theorem processMessage_no_reset {msg : HealthCheckSpecifier} {reg : Registry} :
    Action.backoffReset ∉ (processMessage msg reg).2.1 := by
  by_cases h : (processEntries msg.cluster_health_checks reg).2.2 = true
  · rw [processMessage_of_ok h]
    intro hmem
    simp only at hmem
    rcases List.mem_append.1 hmem with hmem | hmem
    · exact processEntries_no_reset hmem
    · obtain ⟨m, -, hm⟩ := List.mem_map.1 hmem
      cases hm
  · rw [processMessage_of_fail (by simpa using h)]
    exact processEntries_no_reset

/-- Applying a message a second time to the state it produced performs no
action and leaves the registry unchanged. -/
theorem processMessage_idem {msg : HealthCheckSpecifier} {reg : Registry}
    (hnames : (specNames msg).Nodup)
    (hok : (processMessage msg reg).2.2 = true) :
    processMessage msg (processMessage msg reg).1 =
      ((processMessage msg reg).1, [], true) := by
  have hpe : (processEntries msg.cluster_health_checks reg).2.2 = true :=
    processMessage_ok_iff ▸ hok
  have H : ∀ chc ∈ msg.cluster_health_checks, ∃ cl,
      lookupReg (processMessage msg reg).1 chc.cluster_name = some cl ∧
        cl.update (clusterConfigOf chc) = .ok false := by
    intro chc hmem
    obtain ⟨cl, hl, hu⟩ := processEntries_update_ok hnames hpe chc hmem
    refine ⟨cl, ?_, hu⟩
    rw [processMessage_of_ok hpe]
    simp only
    rw [lookupReg_foldl_eraseReg_not_mem ?_]
    · exact hl
    · intro hmem2
      exact (mem_removeList.1 hmem2).2 (List.mem_map_of_mem _ hmem)
  have hstable := processEntries_stable H
  have hpe2 : (processEntries msg.cluster_health_checks (processMessage msg reg).1).2.2 = true := by
    rw [hstable]
  rw [processMessage_of_ok hpe2, hstable]
  have hrem : removeList msg (processMessage msg reg).1 = [] := by
    rw [removeList, List.filter_eq_nil_iff]
    intro n hn
    simp only [decide_eq_true_eq, not_not]
    exact processMessage_keys_sub_spec hok n hn
  rw [hrem]
  simp

/-! ## Session lemmas (`onReceiveMessage`, `step`) -/

theorem onReceiveMessage_none {msg : HealthCheckSpecifier} {s : DelegateState}
    (hm : msg.interval = none) :
    onReceiveMessage msg s = ({ s with requests := s.requests + 1 }, [], false) := by
  simp only [onReceiveMessage, hm]

theorem onReceiveMessage_some_fail {msg : HealthCheckSpecifier} {s : DelegateState} {i : Nat}
    (hm : msg.interval = some i)
    (hf : (processMessage msg s.registry).2.2 = false) :
    onReceiveMessage msg s =
      ({ s with requests := s.requests + 1, registry := (processMessage msg s.registry).1 },
       (processMessage msg s.registry).2.1, false) := by
  simp only [onReceiveMessage, hm]
  simp [hf]

theorem onReceiveMessage_some_eq {msg : HealthCheckSpecifier} {s : DelegateState} {i : Nat}
    (hm : msg.interval = some i)
    (hok : (processMessage msg s.registry).2.2 = true)
    (heq : s.server_response_ms = i) :
    onReceiveMessage msg s =
      ({ s with requests := s.requests + 1, registry := (processMessage msg s.registry).1 },
       (processMessage msg s.registry).2.1, true) := by
  simp only [onReceiveMessage, hm]
  simp [hok, heq]

theorem onReceiveMessage_some_ne {msg : HealthCheckSpecifier} {s : DelegateState} {i : Nat}
    (hm : msg.interval = some i)
    (hok : (processMessage msg s.registry).2.2 = true)
    (hne : s.server_response_ms ≠ i) :
    onReceiveMessage msg s =
      ({ s with requests := s.requests + 1, registry := (processMessage msg s.registry).1,
                server_response_ms := i, report_timer := some i },
       (processMessage msg s.registry).2.1 ++ [Action.armReportTimer i], true) := by
  simp only [onReceiveMessage, hm]
  simp [hok, hne]

theorem onReceiveMessage_stream_open {msg : HealthCheckSpecifier} {s : DelegateState} :
    (onReceiveMessage msg s).1.stream_open = s.stream_open := by
  cases hm : msg.interval with
  | none => rw [onReceiveMessage_none hm]
  | some i =>
    by_cases hok : (processMessage msg s.registry).2.2 = true
    · by_cases heq : s.server_response_ms = i
      · rw [onReceiveMessage_some_eq hm hok heq]
      · rw [onReceiveMessage_some_ne hm hok heq]
    · rw [onReceiveMessage_some_fail hm (by simpa using hok)]

theorem onReceiveMessage_responses {msg : HealthCheckSpecifier} {s : DelegateState} :
    (onReceiveMessage msg s).1.responses = s.responses := by
  cases hm : msg.interval with
  | none => rw [onReceiveMessage_none hm]
  | some i =>
    by_cases hok : (processMessage msg s.registry).2.2 = true
    · by_cases heq : s.server_response_ms = i
      · rw [onReceiveMessage_some_eq hm hok heq]
      · rw [onReceiveMessage_some_ne hm hok heq]
    · rw [onReceiveMessage_some_fail hm (by simpa using hok)]

theorem onReceiveMessage_no_reset {msg : HealthCheckSpecifier} {s : DelegateState} :
    Action.backoffReset ∉ (onReceiveMessage msg s).2.1 := by
  cases hm : msg.interval with
  | none =>
    rw [onReceiveMessage_none hm]
    simp
  | some i =>
    by_cases hok : (processMessage msg s.registry).2.2 = true
    · by_cases heq : s.server_response_ms = i
      · rw [onReceiveMessage_some_eq hm hok heq]
        exact processMessage_no_reset
      · rw [onReceiveMessage_some_ne hm hok heq]
        intro hmem
        rcases List.mem_append.1 hmem with hmem | hmem
        · exact processMessage_no_reset hmem
        · simp at hmem
    · rw [onReceiveMessage_some_fail hm (by simpa using hok)]
      exact processMessage_no_reset

/-- The report timer is armed only while the stream is open, in every
reachable delegate state. -/
theorem reportTimer_armed_imp_open {s : DelegateState} (hr : Reachable s) :
    s.report_timer ≠ none → s.stream_open = true := by
  induction hr with
  | init => intro h; exact absurd rfl h
  | @next s e hr hen ih =>
    cases e with
    | establishOk =>
      intro h
      simp [step]
    | establishFail =>
      intro h
      simp only [step] at h ⊢
      exact ih h
    | receive msg =>
      intro h
      simp only [step]
      rw [onReceiveMessage_stream_open]
      simpa [enabled] using hen
    | remoteClose =>
      intro h
      simp [step] at h
    | reportFire =>
      intro h
      simp only [step]
      exact ih (by simpa [enabled] using hen)

theorem step_responses {s : DelegateState} {e : Event} :
    (step s e).1.responses =
      s.responses + (if isEstablishOk e || isReportFire e then 1 else 0) := by
  cases e with
  | establishOk => simp [step, isEstablishOk, isReportFire]
  | establishFail => simp [step, isEstablishOk, isReportFire]
  | receive msg => simp [step, isEstablishOk, isReportFire, onReceiveMessage_responses]
  | remoteClose => simp [step, isEstablishOk, isReportFire]
  | reportFire => simp [step, isEstablishOk, isReportFire]

theorem run_responses {tr : List Event} : ∀ s : DelegateState,
    (run s tr).responses =
      s.responses + tr.countP isEstablishOk + tr.countP isReportFire := by
  induction tr with
  | nil => intro s; simp [run]
  | cons e rest ih =>
    intro s
    rw [run, ih, step_responses, List.countP_cons, List.countP_cons]
    cases e <;> simp [isEstablishOk, isReportFire] <;> omega

/-! ## Set-comparison helper -/

theorem toFinset_eq_iff_len_subset {l1 l2 : List String} (h1 : l1.Nodup) (h2 : l2.Nodup) :
    l1.toFinset = l2.toFinset ↔ l1.length = l2.length ∧ ∀ a ∈ l2, a ∈ l1 := by
  constructor
  · intro h
    refine ⟨?_, ?_⟩
    · rw [← List.toFinset_card_of_nodup h1, ← List.toFinset_card_of_nodup h2, h]
    · intro a ha
      rw [← List.mem_toFinset] at ha ⊢
      rw [h]
      exact ha
  · rintro ⟨hlen, hsub⟩
    have hsubF : l2.toFinset ⊆ l1.toFinset := by
      intro a ha
      rw [List.mem_toFinset] at ha ⊢
      exact hsub a ha
    have hcard : l1.toFinset.card ≤ l2.toFinset.card := by
      rw [List.toFinset_card_of_nodup h1, List.toFinset_card_of_nodup h2]
      omega
    exact (Finset.eq_of_subset_of_card_le hsubF hcard).symm

/-! ## Concrete inputs used by counterexamples and witnesses -/

def addrA : ProtoAddress := ⟨"a", true⟩
def addrB : ProtoAddress := ⟨"b", true⟩
def addrBad : ProtoAddress := ⟨"z", false⟩

/-- The stored address list of one registry entry (empty when absent). -/
def storedAddresses (reg : Registry) (n : String) : List String :=
  match lookupReg reg n with
  | some cl => cl.hosts.map Host.address
  | none => []

def clAB : HdsCluster :=
  ⟨⟨"c", [addrA, addrB], []⟩, [⟨"a", false, .UNKNOWN⟩, ⟨"b", false, .UNKNOWN⟩]⟩

def regAB : Registry := [("c", clAB)]

def entryDup : ClusterHealthCheck := ⟨"c", [[addrA, addrA]], []⟩

def specDup : HealthCheckSpecifier := ⟨[entryDup], some 1000⟩

def entryA : ClusterHealthCheck := ⟨"c", [[addrA]], []⟩

/-! ## Claim C1 -/

/-- C1, counterexample: with cluster `c` holding hosts `{a, b}` and a
candidate entry whose endpoint list is `[a, a]`, the address sets differ
(`{a, b} ≠ {a}`) yet the reconcile performs no action at all (no probers
stopped, nothing recreated, registry unchanged): `HdsCluster::update`
compares list lengths plus candidate-membership, not the sets themselves,
so the claimed iff fails on duplicated addresses. -/
theorem C1_counterexample :
    (storedAddresses regAB "c").toFinset ≠
        ((clusterConfigOf entryDup).hosts.map ProtoAddress.addr).toFinset ∧
    processMessage specDup regAB = (regAB, [], true) := by
  constructor
  · decide
  · decide

/-- C1 (amended): for a registry already containing a cluster of the same
name, when the candidate's addresses all resolve and both the stored and
the candidate address lists are duplicate-free, the reconcile of that
entry recreates the membership (stops the old probers first, then creates
and starts the new membership) iff the stored address set differs from the
candidate address set; when the sets are equal — in particular for a
reordering of the same addresses or a change only to the health-check
configurations — no action occurs. -/
theorem C1_amended (reg : Registry) (entry : ClusterHealthCheck) (cl : HdsCluster)
    (hl : lookupReg reg entry.cluster_name = some cl)
    (hres : ∀ a ∈ (clusterConfigOf entry).hosts, a.resolvable = true)
    (h1 : (cl.hosts.map Host.address).Nodup)
    (h2 : ((clusterConfigOf entry).hosts.map ProtoAddress.addr).Nodup) :
    ((cl.hosts.map Host.address).toFinset =
        ((clusterConfigOf entry).hosts.map ProtoAddress.addr).toFinset →
      processEntries [entry] reg = (reg, [], true)) ∧
    ((cl.hosts.map Host.address).toFinset ≠
        ((clusterConfigOf entry).hosts.map ProtoAddress.addr).toFinset →
      ∃ cl2, createHdsCluster (clusterConfigOf entry) = .ok cl2 ∧
        processEntries [entry] reg =
          (insertReg (eraseReg reg entry.cluster_name) entry.cluster_name cl2,
           [.stopProbers entry.cluster_name, .createCluster entry.cluster_name,
            .startProbers entry.cluster_name], true)) := by
  have hupd := @update_of_resolvable cl (clusterConfigOf entry) hres
  constructor
  · intro heq
    have hdec : ¬(cl.hosts.length ≠ (clusterConfigOf entry).hosts.length ∨
        ∃ a ∈ (clusterConfigOf entry).hosts, a.addr ∉ cl.hosts.map Host.address) := by
      rw [toFinset_eq_iff_len_subset h1 h2] at heq
      obtain ⟨hlen, hsub⟩ := heq
      rintro (hbad | ⟨a, ha, hnmem⟩)
      · exact hbad (by simpa using hlen)
      · exact hnmem (hsub _ (List.mem_map_of_mem _ ha))
    have hupd2 : cl.update (clusterConfigOf entry) = .ok false := by
      rw [hupd, decide_eq_false hdec]
    have hone := processOne_found_keep hl hupd2
    rw [processEntries_cons_of_ok (by rw [hone])]
    rw [hone]
    simp [processEntries]
  · intro hne
    have hdec : cl.hosts.length ≠ (clusterConfigOf entry).hosts.length ∨
        ∃ a ∈ (clusterConfigOf entry).hosts, a.addr ∉ cl.hosts.map Host.address := by
      by_contra hcon
      push_neg at hcon
      obtain ⟨hlen, hsub⟩ := hcon
      apply hne
      rw [toFinset_eq_iff_len_subset h1 h2]
      constructor
      · simpa using hlen
      · intro a ha
        obtain ⟨pa, hpa, rfl⟩ := List.mem_map.1 ha
        exact hsub pa hpa
    have hupd2 : cl.update (clusterConfigOf entry) = .ok true := by
      rw [hupd, decide_eq_true hdec]
    have hc := createHdsCluster_of_resolvable hres
    refine ⟨_, hc, ?_⟩
    have hone := processOne_found_changed_ok hl hupd2 hc
    rw [processEntries_cons_of_ok (by rw [hone])]
    rw [hone]
    simp [processEntries]

/-- C1, witness: cluster `c` stored with hosts `{a, b}`, candidate entry
with the single endpoint `a`: the sets differ, so the amended theorem
yields the recreation branch at this concrete input. -/
theorem C1_amended_witness :
    (((clAB.hosts.map Host.address).toFinset =
        ((clusterConfigOf entryA).hosts.map ProtoAddress.addr).toFinset →
      processEntries [entryA] regAB = (regAB, [], true)) ∧
     ((clAB.hosts.map Host.address).toFinset ≠
        ((clusterConfigOf entryA).hosts.map ProtoAddress.addr).toFinset →
      ∃ cl2, createHdsCluster (clusterConfigOf entryA) = .ok cl2 ∧
        processEntries [entryA] regAB =
          (insertReg (eraseReg regAB entryA.cluster_name) entryA.cluster_name cl2,
           [.stopProbers entryA.cluster_name, .createCluster entryA.cluster_name,
            .startProbers entryA.cluster_name], true))) :=
  C1_amended regAB entryA clAB (by decide) (by decide) (by decide) (by decide)

/-! ## Claim C2 -/

def msgNoInterval : HealthCheckSpecifier := ⟨[entryA], none⟩

def sOpen : DelegateState := { initState with stream_open := true }

/-- C2: a specifier without the mandatory `interval` field. The claim is
right that reconciliation must not occur and that the error must be
handled locally; the code does skip the reconcile (nothing after the
extraction runs), but `PROTOBUF_GET_MS_REQUIRED` raises
`MissingFieldException` and `onReceiveMessage` has no handler, so the
exception escapes the callback (the final `false` records the abnormal
exit). Only the request counter, already bumped, changes. -/
theorem C2_missing_interval :
    onReceiveMessage msgNoInterval sOpen =
      ({ sOpen with requests := sOpen.requests + 1 }, [], false) ∧
    (onReceiveMessage msgNoInterval sOpen).1.registry = sOpen.registry ∧
    (onReceiveMessage msgNoInterval sOpen).1.report_timer = sOpen.report_timer := by
  refine ⟨?_, ?_, ?_⟩ <;> decide

/-! ## Claim C3 -/

def specMidFail : HealthCheckSpecifier :=
  ⟨[⟨"c0", [[addrA]], []⟩, ⟨"c1", [[addrBad]], []⟩, ⟨"c2", [[addrB]], []⟩], some 1000⟩

/-- C3: a specifier whose second entry (`c1`) carries an unresolvable
address. The exception thrown while constructing that `HdsCluster`
propagates out of `processMessage` (flag `false`): the third entry `c2`
is never processed and the removal phase never runs, contradicting the
claim (and the spec) that the failure is isolated to the one entry and
the remaining entries are still processed. Entry `c0`, processed before
the failure, is kept. -/
theorem C3_midlist_abort :
    (processMessage specMidFail []).2.2 = false ∧
    regKeys (processMessage specMidFail []).1 = ["c0"] ∧
    "c2" ∉ regKeys (processMessage specMidFail []).1 := by
  refine ⟨?_, ?_, ?_⟩ <;> decide

/-! ## Claim C4 -/

/-- C4: when a reconcile completes without an exception, every cluster name
tracked before the call but absent from the specification is gone from the
registry afterwards and its probers were stopped exactly once, while every
name carried by the specification is still (or newly) present at the end
of the call — the removal step never touches it. -/
theorem C4_removal (msg : HealthCheckSpecifier) (reg : Registry)
    (hkeys : (regKeys reg).Nodup) (hok : (processMessage msg reg).2.2 = true) :
    (∀ n, n ∈ regKeys reg → n ∉ specNames msg →
       n ∉ regKeys (processMessage msg reg).1 ∧
         stopCount n (processMessage msg reg).2.1 = 1) ∧
    (∀ n, n ∈ specNames msg → n ∈ regKeys (processMessage msg reg).1) := by
  constructor
  · intro n h1 h2
    exact ⟨processMessage_removed hok h1 h2,
      processMessage_stopCount_removed hkeys hok h1 h2⟩
  · intro n h
    exact processMessage_keeps_spec hok h

def clX : HdsCluster := ⟨⟨"x", [addrA], []⟩, [⟨"a", false, .UNKNOWN⟩]⟩
def clY : HdsCluster := ⟨⟨"y", [addrB], []⟩, [⟨"b", false, .UNKNOWN⟩]⟩
def regXY : Registry := [("x", clX), ("y", clY)]
def specX : HealthCheckSpecifier := ⟨[⟨"x", [[addrA]], []⟩], some 5⟩

/-- C4, witness: registry `{x, y}` reconciled against a specification
naming only `x`: `y` is removed with its probers stopped exactly once and
`x` survives. -/
theorem C4_removal_witness :
    ("y" ∉ regKeys (processMessage specX regXY).1 ∧
     stopCount "y" (processMessage specX regXY).2.1 = 1) ∧
    "x" ∈ regKeys (processMessage specX regXY).1 :=
  ⟨(C4_removal specX regXY (by decide) (by decide)).1 "y" (by decide) (by decide),
   (C4_removal specX regXY (by decide) (by decide)).2 "x" (by decide)⟩

/-! ## Claim C5 -/

/-- C5: re-applying a specification (whose cluster names are unique, as the
data model requires) to the registry its first, exception-free application
produced performs zero create/update/remove actions: no probers started or
stopped, the registry mapping unchanged. -/
theorem C5_idempotent (msg : HealthCheckSpecifier) (reg : Registry)
    (hnames : (specNames msg).Nodup)
    (hok : (processMessage msg reg).2.2 = true) :
    processMessage msg (processMessage msg reg).1 =
      ((processMessage msg reg).1, [], true) :=
  processMessage_idem hnames hok

/-- C5, witness: the `{x}` specification applied twice to `{x, y}`. -/
theorem C5_idempotent_witness :
    processMessage specX (processMessage specX regXY).1 =
      ((processMessage specX regXY).1, [], true) :=
  C5_idempotent specX regXY (by decide) (by decide)

/-! ## Claim C6 -/

/-- C6: on a message carrying interval `i` whose reconcile completes, the
report timer is re-armed with `i` (a fresh wait of `i` from receipt) iff
`i` differs from the cached `server_response_ms_`, which is updated to
`i`; when `i` equals the cached value, the pending timer and the cached
value are left untouched. -/
theorem C6_interval_rearm (msg : HealthCheckSpecifier) (s : DelegateState) (i : Nat)
    (hi : msg.interval = some i)
    (hok : (processMessage msg s.registry).2.2 = true) :
    (s.server_response_ms ≠ i →
      (onReceiveMessage msg s).1.report_timer = some i ∧
      (onReceiveMessage msg s).1.server_response_ms = i) ∧
    (s.server_response_ms = i →
      (onReceiveMessage msg s).1.report_timer = s.report_timer ∧
      (onReceiveMessage msg s).1.server_response_ms = s.server_response_ms) := by
  constructor
  · intro hne
    rw [onReceiveMessage_some_ne hi hok hne]
    exact ⟨rfl, rfl⟩
  · intro heq
    rw [onReceiveMessage_some_eq hi hok heq]
    exact ⟨rfl, rfl⟩

def msgI5 : HealthCheckSpecifier := ⟨[], some 5⟩

/-- C6, witness: a message with interval 5 received while 0 is cached
re-arms the report timer to 5. -/
theorem C6_interval_rearm_witness :
    (onReceiveMessage msgI5 sOpen).1.report_timer = some 5 ∧
    (onReceiveMessage msgI5 sOpen).1.server_response_ms = 5 :=
  (C6_interval_rearm msgI5 sOpen 5 (by decide) (by decide)).1 (by decide)

/-! ## Claim C7 -/

def countAddr (resp : List EndpointHealth) (a : String) : Nat :=
  (resp.map EndpointHealth.address).count a

def allAddresses (reg : Registry) : List String :=
  reg.flatMap fun p => p.2.hosts.map Host.address

def specTwoClusters : HealthCheckSpecifier :=
  ⟨[⟨"c1", [[addrA]], []⟩, ⟨"c2", [[addrA]], []⟩], some 7⟩

def regTwo : Registry := (processMessage specTwoClusters []).1

/-- C7, counterexample: a registry built by reconciling two clusters that
share endpoint address `a` (the code's TODO acknowledges this case) holds
a host with address `a`, yet the built report carries two entries with
that address, not exactly one. -/
theorem C7_counterexample :
    (∃ p ∈ regTwo, ∃ h ∈ p.2.hosts, h.address = "a") ∧
    countAddr (sendResponseEndpoints regTwo) "a" = 2 := by
  refine ⟨?_, ?_⟩ <;> decide

theorem sendResponse_addresses {reg : Registry} :
    (sendResponseEndpoints reg).map EndpointHealth.address = allAddresses reg := by
  induction reg with
  | nil => rfl
  | cons p rest ih =>
    simp only [sendResponseEndpoints, allAddresses, List.flatMap_cons, List.map_append,
      List.map_map] at ih ⊢
    rw [ih]
    rfl

/-- C7 (amended): the built report carries one entry per host occurrence of
every cluster of the registry — as many entries as there are hosts — and
for every host there is an entry with that host's address whose status is
HEALTHY when the host is healthy, TIMEOUT on a timeout failure, and
UNHEALTHY on an explicit-unhealthy or unknown failure (no other status is
possible: the failure enum is exhaustive, mirroring the unreachable
`NOT_REACHED` branch). The entry carrying a host's address is unique
whenever addresses are unique across the whole registry; with a duplicated
address (e.g. the same endpoint in two clusters) several entries carry
it. -/
theorem C7_amended (reg : Registry) :
    (sendResponseEndpoints reg).length = (allAddresses reg).length ∧
    (∀ p ∈ reg, ∀ h ∈ p.2.hosts,
      ∃ e ∈ sendResponseEndpoints reg, e.address = h.address ∧
        (h.healthy = true → e.health_status = .HEALTHY) ∧
        (h.healthy = false → h.failure = .TIMEOUT → e.health_status = .TIMEOUT) ∧
        (h.healthy = false → (h.failure = .UNHEALTHY ∨ h.failure = .UNKNOWN) →
          e.health_status = .UNHEALTHY)) ∧
    ((allAddresses reg).Nodup → ∀ p ∈ reg, ∀ h ∈ p.2.hosts,
      countAddr (sendResponseEndpoints reg) h.address = 1) := by
  refine ⟨?_, ?_, ?_⟩
  · rw [← sendResponse_addresses, List.length_map]
  · intro p hp h hh
    refine ⟨⟨h.address, statusOfHost h⟩, ?_, rfl, ?_, ?_, ?_⟩
    · rw [sendResponseEndpoints]
      exact List.mem_flatMap.2 ⟨p, hp, List.mem_map_of_mem _ hh⟩
    · intro hh1
      simp [statusOfHost, hh1]
    · intro hh0 hf
      simp [statusOfHost, hh0, hf]
    · intro hh0 hf
      rcases hf with hf | hf <;> simp [statusOfHost, hh0, hf]
  · intro hnd p hp h hh
    rw [countAddr, sendResponse_addresses]
    refine List.count_eq_one_of_mem hnd ?_
    rw [allAddresses]
    exact List.mem_flatMap.2 ⟨p, hp, List.mem_map_of_mem _ hh⟩

/-- C7, witness: the single cluster `c` with two distinct addresses: two
report entries, each address appearing exactly once. -/
theorem C7_amended_witness :
    (sendResponseEndpoints regAB).length = (allAddresses regAB).length ∧
    countAddr (sendResponseEndpoints regAB) "a" = 1 :=
  ⟨(C7_amended regAB).1,
   (C7_amended regAB).2.2 (by decide) ("c", clAB) (by decide)
     ⟨"a", false, .UNKNOWN⟩ (by decide)⟩

/-! ## Claim C8 -/

/-- C8: in every reachable delegate state the report timer is armed only
while the stream is open (never while disconnected), and `onRemoteClose`
disarms the report timer, its action trace placing the disarm before the
retry-path actions. -/
theorem C8_timer_open (s : DelegateState) (hr : Reachable s) :
    (s.report_timer ≠ none → s.stream_open = true) ∧
    (step s .remoteClose).1.report_timer = none ∧
    (step s .remoteClose).2 = [.disarmReportTimer, .backoffNext, .armRetryTimer] :=
  ⟨reportTimer_armed_imp_open hr, by simp [step], rfl⟩

def sAfterOk : DelegateState := (step initState .establishOk).1

def sArmed : DelegateState := (step sAfterOk (.receive msgI5)).1

theorem sArmed_reachable : Reachable sArmed :=
  @Reachable.next sAfterOk (.receive msgI5)
    (@Reachable.next initState .establishOk Reachable.init rfl) rfl

/-- C8, witness: after establishing a stream and receiving a message with
interval 5 the report timer is armed and the stream is indeed open; a
remote close then disarms the timer. -/
theorem C8_timer_open_witness :
    sArmed.stream_open = true ∧
    (step sArmed .remoteClose).1.report_timer = none :=
  ⟨(C8_timer_open sArmed sArmed_reachable).1 (by decide),
   (C8_timer_open sArmed sArmed_reachable).2.1⟩

/-! ## Claim C9 -/

/-- C9: a successful stream establishment emits exactly the handshake send
followed by the backoff reset — one reset, after the handshake; no other
event (message receipt, remote close, report fire, failed establishment)
ever emits a backoff reset; a failed establishment takes the next backoff
value (advancing it) instead. -/
theorem C9_backoff_reset :
    (∀ s : DelegateState, (step s .establishOk).2 = [.sendHandshake, .backoffReset]) ∧
    (∀ (s : DelegateState) (e : Event), e ≠ .establishOk →
      countAct .backoffReset (step s e).2 = 0) ∧
    (∀ s : DelegateState, Action.backoffNext ∈ (step s .establishFail).2 ∧
      Action.backoffReset ∉ (step s .establishFail).2) := by
  refine ⟨fun s => rfl, ?_, fun s => ⟨?_, ?_⟩⟩
  · intro s e hne
    cases e with
    | establishOk => exact absurd rfl hne
    | establishFail => rfl
    | receive msg =>
      simp only [step]
      rw [countAct, List.count_eq_zero]
      exact onReceiveMessage_no_reset
    | remoteClose => rfl
    | reportFire => rfl
  · simp [step]
  · simp [step]

/-- C9, witness: concrete events at the initial state. -/
theorem C9_backoff_reset_witness :
    (step initState .establishOk).2 = [.sendHandshake, .backoffReset] ∧
    countAct .backoffReset (step initState .remoteClose).2 = 0 ∧
    (Action.backoffNext ∈ (step initState .establishFail).2 ∧
     Action.backoffReset ∉ (step initState .establishFail).2) :=
  ⟨C9_backoff_reset.1 initState,
   C9_backoff_reset.2.1 initState .remoteClose (fun h => Event.noConfusion h),
   C9_backoff_reset.2.2 initState⟩

/-! ## Claim C10 -/

/-- C10: over any event trace, the responses counter grows by exactly the
number of successful stream establishments (each sending the handshake)
plus the number of report-timer fires (each sending a report): after `N`
establishments and `M` reports it has grown by `N + M`; no other event
touches it. -/
theorem C10_responses_count (tr : List Event) (s : DelegateState) :
    (run s tr).responses =
      s.responses + tr.countP isEstablishOk + tr.countP isReportFire :=
  run_responses s

end HdsSpec
